import Mathlib

/-!
# Verification of the exam-timetabling CSP encoding (exams.py)

Shallow embedding of the problem-encoding and constraint layer of
`exams.py`: the variable/domain builder in `Exams.__init__`, the five
binary constraint predicates, the per-variable predicate lists
(`var_to_cons`), the neighbor graph, and the display/harness behaviour
relevant to failure reporting.

Python dictionaries are modelled as association lists in insertion
order: `dset` updates an existing key in place or appends a fresh one
(so keys stay unique when starting from the empty dictionary, and a
`dict(zip(...))` with duplicate keys keeps the last value, as in
Python).  A lookup of a missing key (Python `KeyError`) is modelled by
`Option`/`Except` results.
-/

set_option maxRecDepth 4000

/-- A Python dictionary with string keys, as an association list in
insertion order. -/
abbrev Dict (α : Type) := List (String × α)

/-- Dictionary lookup `d[k]`; `none` models a `KeyError`. -/
def dget {α : Type} (d : Dict α) (k : String) : Option α :=
  (d.find? (fun p => p.1 == k)).map (fun p => p.2)

/-- Assignment `d[k] = v`: update the entry in place if the key exists,
otherwise append a fresh entry (Python dictionary insertion order). -/
def dset {α : Type} (d : Dict α) (k : String) (v : α) : Dict α :=
  if d.any (fun p => p.1 == k) then
    d.map (fun p => if p.1 = k then (k, v) else p)
  else
    d ++ [(k, v)]

/-- `d.pop(k)`: the removed value together with the remaining
dictionary; `none` models a `KeyError`. -/
def dpop {α : Type} (d : Dict α) (k : String) : Option (α × Dict α) :=
  match dget d k with
  | none => none
  | some v => some (v, d.filter (fun p => !(p.1 == k)))

/-- The key list of a dictionary (Python `d.keys()`). -/
def dkeys {α : Type} (d : Dict α) : List String := d.map (fun p => p.1)

/-- The value list of a dictionary (Python `d.values()`). -/
def dvalues {α : Type} (d : Dict α) : List α := d.map (fun p => p.2)

/-- One row of the subject catalog (`subjects.csv`): name, semester,
professor, difficulty flag, lab flag. -/
structure SubjectRecord where
  name : String
  semester : Int
  professor : String
  difficult : Bool
  hasLab : Bool
deriving DecidableEq, Repr

/-- `dict(zip(subjects, column))` of exams.py lines 24-27: a dictionary
from subject names to one attribute column, later rows overriding
earlier ones on a duplicated name, as in Python. -/
def initDict {α : Type} (rs : List SubjectRecord) (f : SubjectRecord → α) : Dict α :=
  rs.foldl (fun d r => dset d r.name (f r)) []

/-- The mutable state built by `Exams.__init__` (exams.py lines 24-45):
the three attribute dictionaries, the variable list and the
lab-to-theory map `self.laboratories`. -/
structure ExamsState where
  semesters : Dict Int
  professors : Dict String
  difficulties : Dict Bool
  vars : List String
  laboratories : Dict String
deriving DecidableEq, Repr

/-- The Theory variable name of a lab-bearing subject (exams.py line 34). -/
def theoryName (n : String) : String := n ++ " Theory"

/-- The Lab variable name of a lab-bearing subject (exams.py line 35). -/
def labName (n : String) : String := n ++ " Lab"

/-- The loop of exams.py lines 32-42: for each subject name, either
split it into Theory/Lab variables (re-keying the three attributes to
the Theory name and registering the lab relation) or emit it as a
single variable.  `Except.error` models the `KeyError` that Python
raises when `pop` misses. -/
def buildLoop (checkLab : Dict Bool) : List String → ExamsState → Except String ExamsState
  | [], st => Except.ok st
  | n :: rest, st =>
    match dget checkLab n with
    | none => Except.error "KeyError"
    | some true =>
      match dpop st.semesters n, dpop st.professors n, dpop st.difficulties n with
      | some sv, some pv, some dv =>
        buildLoop checkLab rest
          { semesters := dset sv.2 (theoryName n) sv.1
            professors := dset pv.2 (theoryName n) pv.1
            difficulties := dset dv.2 (theoryName n) dv.1
            vars := st.vars ++ [theoryName n, labName n]
            laboratories := dset st.laboratories (labName n) (theoryName n) }
      | _, _, _ => Except.error "KeyError"
    | some false =>
      buildLoop checkLab rest { st with vars := st.vars ++ [n] }

/-- `Exams.__init__` (exams.py lines 21-45) up to and including the
construction of variables, attribute dictionaries and the lab map. -/
def buildExams (rs : List SubjectRecord) : Except String ExamsState :=
  buildLoop (initDict rs (fun r => r.hasLab)) (rs.map (fun r => r.name))
    { semesters := initDict rs (fun r => r.semester)
      professors := initDict rs (fun r => r.professor)
      difficulties := initDict rs (fun r => r.difficult)
      vars := []
      laboratories := [] }

/-- A domain value: a `(day, slot)` pair. -/
abbrev Val := Nat × Nat

/-- The uniform domain `[(i, j) for i in range(21) for j in range(3)]`
of exams.py line 44. -/
def fullDomain : List Val :=
  (List.range 21).flatMap (fun i => (List.range 3).map (fun j => (i, j)))

/-- `self.domains` of exams.py line 44: every variable gets the full
63-value domain. -/
def domainsOf (E : ExamsState) : Dict (List Val) :=
  E.vars.foldl (fun d v => dset d v fullDomain) []

/-- `self.neighbors` of exams.py line 45: every other variable. -/
def neighborsOf (E : ExamsState) (v : String) : List String :=
  E.vars.filter (fun s => !(s == v))

/-- A reference to one of the five constraint predicates, standing for
the bound methods stored in `var_to_cons` (exams.py lines 47-54). -/
inductive PTag where
  | slot | lab | semester | professor | difficulty
deriving DecidableEq, Repr

/-- `self.var_to_cons[v]` of exams.py lines 47-54, for one variable:
always slot-uniqueness; lab-ordering when the variable is a key or a
value of `self.laboratories`; for non-Lab variables additionally
semester- and professor-uniqueness, plus difficulty-separation when the
difficulty flag is set.  `none` models the `KeyError` of
`self.difficulties[var]` on line 53 when the key is absent. -/
def varToCons (E : ExamsState) (v : String) : Option (List PTag) :=
  let isLabKey := E.laboratories.any (fun p => p.1 == v)
  let isLabValue := E.laboratories.any (fun p => p.2 == v)
  let base := [PTag.slot] ++ (if isLabKey || isLabValue then [PTag.lab] else [])
  if isLabKey then some base
  else
    match dget E.difficulties v with
    | none => none
    | some d =>
      some (base ++ [PTag.semester, PTag.professor] ++ (if d then [PTag.difficulty] else []))

/-- `Exams.slot_constraint` (exams.py lines 60-61): the two assigned
values differ. -/
def slot_constraint (A : String) (a : Val) (B : String) (b : Val) : Bool :=
  decide (a ≠ b)

/-- `Exams.lab_constraint` (exams.py lines 63-68), parameterised by the
`self.laboratories` dictionary: if one variable is the registered lab
of the other, the lab sits on the same day in the next slot; otherwise
true. -/
def lab_constraint (labs : Dict String) (A : String) (a : Val) (B : String) (b : Val) : Bool :=
  if dget labs A = some B then
    decide (a.1 = b.1 ∧ a.2 = b.2 + 1)
  else if dget labs B = some A then
    decide (b.1 = a.1 ∧ b.2 = a.2 + 1)
  else
    true

/-- `Exams.semester_constraint` (exams.py lines 70-71):
`self.semesters[A] != self.semesters[B] or a[0] != b[0]`.  The two
dictionary lookups happen unconditionally, so a missing key makes the
whole evaluation a `KeyError`, modelled by `none`. -/
def semester_constraint (sem : Dict Int) (A : String) (a : Val) (B : String) (b : Val) :
    Option Bool :=
  match dget sem A, dget sem B with
  | some sA, some sB => some (decide (sA ≠ sB) || decide (a.1 ≠ b.1))
  | _, _ => none

/-- `Exams.professor_constraint` (exams.py lines 73-74), analogous to
`semester_constraint`. -/
def professor_constraint (prof : Dict String) (A : String) (a : Val) (B : String) (b : Val) :
    Option Bool :=
  match dget prof A, dget prof B with
  | some pA, some pB => some (decide (pA ≠ pB) || decide (a.1 ≠ b.1))
  | _, _ => none

/-- `Exams.difficulty_constraint` (exams.py lines 76-77):
`abs(a[0] - b[0]) >= 2`.  Note that neither the second variable's kind
nor its difficulty flag is consulted. -/
def difficulty_constraint (A : String) (a : Val) (B : String) (b : Val) : Bool :=
  decide (2 ≤ ((a.1 : Int) - (b.1 : Int)).natAbs)

/-- The day names of `Exams.display` (exams.py line 80). -/
def dayNames : List String :=
  ["Monday", "Tuesday", "Wednesday", "Thursday", "Friday", "Saturday", "Sunday"]

/-- The slot labels of `Exams.display` (exams.py line 81). -/
def slotNames : List String := ["9-11", "11-1", "1-3"]

/-- The week labels of `Exams.display` (exams.py line 82). -/
def weekNames : List String := ["First Week", "Second Week", "Third Week"]

/-- `Exams.display` (exams.py lines 79-93) as the list of printed
lines/cells: per week its label, per day its name, and for each
`(day, slot)` cell an entry for every variable assigned there. -/
def displayLines (assignment : List (String × Val)) : List String :=
  (List.range 3).flatMap (fun k =>
    weekNames.getD k "" ::
      (List.range 7).flatMap (fun d =>
        dayNames.getD d "" ::
          (List.range 3).flatMap (fun j =>
            (assignment.filter (fun p => decide (p.2 = (k * 7 + d, j)))).map
              (fun p => (slotNames.getD j "") ++ ": " ++ p.1))))

/-- The display step of the MIN_CONFLICTS branch of the harness
(exams.py line 123): the raw solver result is passed to
`Exams.display`.  Per the spec of the external engine, `min_conflicts`
returns a failure signal (`None`) when it exhausts its iterations;
`display(None)` then raises `AttributeError` on `None.items()`,
modelled by `Except.error`. -/
def minConflictsReport (result : Option (List (String × Val))) : Except String (List String) :=
  match result with
  | none => Except.error "AttributeError"
  | some a => Except.ok (displayLines a)

/-! ## The shape of the state built from a well-formed catalog -/

/-- The variable list produced by the builder: one variable per
lab-less record, a Theory/Lab pair (in this order) per lab-bearing
record, in input order. -/
def derivedVars (rs : List SubjectRecord) : List String :=
  rs.flatMap (fun r => if r.hasLab then [theoryName r.name, labName r.name] else [r.name])

/-- The lab-to-theory map produced by the builder. -/
def labPairs (rs : List SubjectRecord) : Dict String :=
  (rs.filter (fun r => r.hasLab)).map (fun r => (labName r.name, theoryName r.name))

/-- The final contents of one attribute dictionary: lab-less records
keyed by their own name (in input order), followed by the re-keyed
Theory entries of the lab-bearing records (in input order). -/
def finalAttr {α : Type} (rs : List SubjectRecord) (f : SubjectRecord → α) : Dict α :=
  (rs.filter (fun r => !r.hasLab)).map (fun r => (r.name, f r))
    ++ (rs.filter (fun r => r.hasLab)).map (fun r => (theoryName r.name, f r))

/-- The state `Exams.__init__` reaches on a well-formed catalog. -/
def builtState (rs : List SubjectRecord) : ExamsState :=
  { semesters := finalAttr rs (fun r => r.semester)
    professors := finalAttr rs (fun r => r.professor)
    difficulties := finalAttr rs (fun r => r.difficult)
    vars := derivedVars rs
    laboratories := labPairs rs }

/-- A well-formed catalog: record names are pairwise distinct, and no
derived Theory/Lab variable name of a lab-bearing record collides with
any record name. -/
def ValidCatalog (rs : List SubjectRecord) : Prop :=
  (rs.map (fun r => r.name)).Nodup ∧
    ∀ r ∈ rs, r.hasLab = true →
      theoryName r.name ∉ rs.map (fun r => r.name) ∧
      labName r.name ∉ rs.map (fun r => r.name)

instance (rs : List SubjectRecord) : Decidable (ValidCatalog rs) := by
  unfold ValidCatalog; infer_instance

/-! ## Concrete catalogs used as witnesses and counterexamples -/

/-- The lab-bearing difficult subject of the spec's scenario. -/
def algorithmsRec : SubjectRecord :=
  { name := "Algorithms", semester := 3, professor := "A", difficult := true, hasLab := true }

/-- The plain subject of the spec's scenario. -/
def historyRec : SubjectRecord :=
  { name := "History", semester := 3, professor := "B", difficult := false, hasLab := false }

/-- The two-subject scenario catalog of the spec. -/
def catalog2 : List SubjectRecord := [algorithmsRec, historyRec]

example : ValidCatalog catalog2 := by decide

example : buildExams catalog2 = Except.ok (builtState catalog2) := by rfl

example : (builtState catalog2).vars = ["Algorithms Theory", "Algorithms Lab", "History"] := by
  decide

example : varToCons (builtState catalog2) "Algorithms Lab" = some [PTag.slot, PTag.lab] := by
  decide

example :
    varToCons (builtState catalog2) "Algorithms Theory" =
      some [PTag.slot, PTag.lab, PTag.semester, PTag.professor, PTag.difficulty] := by
  decide

example :
    semester_constraint (builtState catalog2).semesters "History" (0, 0) "Algorithms Lab" (0, 0) =
      none := by
  decide

/-! ## Dictionary lemmas -/

theorem dget_nil {α : Type} (k : String) : dget ([] : Dict α) k = none := rfl

theorem dget_cons {α : Type} (q : String × α) (d : Dict α) (k : String) :
    dget (q :: d) k = if q.1 = k then some q.2 else dget d k := by
  by_cases h : q.1 = k
  · simp [dget, List.find?_cons_of_pos, h]
  · simp [dget, List.find?_cons_of_neg, h]

theorem dget_eq_none {α : Type} (d : Dict α) (k : String) :
    dget d k = none ↔ k ∉ dkeys d := by
  induction d with
  | nil => simp [dget_nil, dkeys]
  | cons q d ih =>
    by_cases h : q.1 = k <;> simp [dget_cons, dkeys, h, ih] <;> simp [dkeys] at ih <;>
      tauto

theorem dget_isSome {α : Type} (d : Dict α) (k : String) :
    (dget d k).isSome = true ↔ k ∈ dkeys d := by
  constructor
  · intro h
    by_contra hk
    rw [(dget_eq_none d k).mpr hk] at h
    simp at h
  · intro h
    rcases hs : dget d k with _ | v
    · exact absurd ((dget_eq_none d k).mp hs) (by simp [h])
    · rfl

theorem dget_append {α : Type} (d₁ d₂ : Dict α) (k : String) :
    dget (d₁ ++ d₂) k = (dget d₁ k).or (dget d₂ k) := by
  induction d₁ with
  | nil => simp [dget_nil]
  | cons q d ih =>
    by_cases h : q.1 = k <;> simp [dget_cons, h, ih]

theorem dget_append_left {α : Type} {d₁ : Dict α} {k : String} {v : α}
    (h : dget d₁ k = some v) (d₂ : Dict α) : dget (d₁ ++ d₂) k = some v := by
  rw [dget_append, h, Option.or_some]

theorem dget_append_right {α : Type} {d₁ : Dict α} {k : String}
    (h : k ∉ dkeys d₁) (d₂ : Dict α) : dget (d₁ ++ d₂) k = dget d₂ k := by
  rw [dget_append, (dget_eq_none d₁ k).mpr h, Option.none_or]

theorem dset_fresh {α : Type} (d : Dict α) (k : String) (v : α) (h : k ∉ dkeys d) :
    dset d k v = d ++ [(k, v)] := by
  have hany : d.any (fun p => p.1 == k) = false := by
    rw [List.any_eq_false]
    intro p hp
    simp only [beq_iff_eq]
    intro e
    exact h (e ▸ List.mem_map_of_mem (fun p => p.1) hp)
  simp [dset, hany]

theorem dget_filter_ne {α : Type} (d : Dict α) (n k : String) (h : k ≠ n) :
    dget (d.filter (fun p => !(p.1 == n))) k = dget d k := by
  induction d with
  | nil => rfl
  | cons q d ih =>
    by_cases hq : q.1 = n
    · have hqk : q.1 ≠ k := by rw [hq]; exact fun e => h e.symm
      simp [List.filter_cons, hq, dget_cons, hqk, ih, Ne.symm h]
    · simp [List.filter_cons, hq, dget_cons, ih]

theorem dkeys_append {α : Type} (d₁ d₂ : Dict α) :
    dkeys (d₁ ++ d₂) = dkeys d₁ ++ dkeys d₂ := by
  simp [dkeys]

theorem dkeys_filter_subset {α : Type} (d : Dict α) (q : String × α → Bool) :
    dkeys (d.filter q) ⊆ dkeys d := by
  intro k hk
  simp only [dkeys, List.mem_map] at hk ⊢
  obtain ⟨p, hp, e⟩ := hk
  exact ⟨p, (List.mem_filter.mp hp).1, e⟩

theorem dkeys_map {α β : Type} (l : List β) (g : β → String) (f : β → α) :
    dkeys (l.map (fun x => (g x, f x))) = l.map g := by
  simp [dkeys, List.map_map]

theorem dget_map_of_mem {α β : Type} {l : List β} {g : β → String} {f : β → α}
    (hnd : (l.map g).Nodup) {r : β} (hr : r ∈ l) :
    dget (l.map (fun x => (g x, f x))) (g r) = some (f r) := by
  induction l with
  | nil => cases hr
  | cons x l ih =>
    have hnd2 : g x ∉ l.map g ∧ (l.map g).Nodup := by
      rw [List.map_cons, List.nodup_cons] at hnd
      exact hnd
    rcases List.mem_cons.mp hr with h | h
    · subst h
      simp [List.map_cons, dget_cons]
    · have hne : g x ≠ g r := fun e => hnd2.1 (e ▸ List.mem_map_of_mem g h)
      simp [List.map_cons, dget_cons, hne, ih hnd2.2 h]

theorem dget_map_eq_some {α β : Type} {l : List β} {g : β → String} {f : β → α}
    {k : String} {v : α} (h : dget (l.map (fun x => (g x, f x))) k = some v) :
    ∃ r ∈ l, g r = k ∧ f r = v := by
  induction l with
  | nil => simp [dget_nil] at h
  | cons x l ih =>
    rw [List.map_cons, dget_cons] at h
    by_cases e : g x = k
    · rw [if_pos e] at h
      exact ⟨x, List.mem_cons_self x l, e, Option.some.inj h⟩
    · rw [if_neg e] at h
      obtain ⟨r, hr, h1, h2⟩ := ih h
      exact ⟨r, List.mem_cons_of_mem x hr, h1, h2⟩

/-! ## String lemmas about the derived variable names -/

theorem theoryName_inj {n m : String} (h : theoryName n = theoryName m) : n = m := by
  have h3 : n.data ++ " Theory".data = m.data ++ " Theory".data := by
    simpa [theoryName] using congrArg String.data h
  exact String.ext (List.append_cancel_right h3)

theorem labName_inj {n m : String} (h : labName n = labName m) : n = m := by
  have h3 : n.data ++ " Lab".data = m.data ++ " Lab".data := by
    simpa [labName] using congrArg String.data h
  exact String.ext (List.append_cancel_right h3)

theorem theoryName_ne_labName (n m : String) : theoryName n ≠ labName m := by
  intro h
  have h2 : n.data ++ " Theory".data = m.data ++ " Lab".data := by
    simpa [theoryName, labName] using congrArg String.data h
  have h3 := congrArg List.getLast? h2
  rw [List.getLast?_append, List.getLast?_append] at h3
  have e1 : (" Theory".data).getLast? = some ('y') := by decide
  have e2 : (" Lab".data).getLast? = some ('b') := by decide
  rw [e1, e2] at h3
  simp only [Option.or_some] at h3
  exact absurd (Option.some.inj h3) (by decide)

/-! ## The builder loop on a well-formed catalog -/

/-- The names of the lab-bearing records still to be processed; their
attribute entries get popped by the loop. -/
def labRecNames (rs : List SubjectRecord) : List String :=
  (rs.filter (fun r => r.hasLab)).map (fun r => r.name)

/-- The effect of the rest of the loop on one attribute dictionary:
the entries of lab-bearing records still to be processed are popped,
and their Theory entries are appended in input order. -/
def attrStep {α : Type} (rs : List SubjectRecord) (f : SubjectRecord → α) (d : Dict α) :
    Dict α :=
  d.filter (fun p => !((labRecNames rs).contains p.1)) ++
    (rs.filter (fun r => r.hasLab)).map (fun r => (theoryName r.name, f r))

theorem attrStep_nil {α : Type} (f : SubjectRecord → α) (d : Dict α) :
    attrStep [] f d = d := by
  simp [attrStep, labRecNames]

theorem labRecNames_cons_lab {r : SubjectRecord} (rest : List SubjectRecord)
    (hr : r.hasLab = true) :
    labRecNames (r :: rest) = r.name :: labRecNames rest := by
  simp [labRecNames, List.filter_cons, hr]

theorem attrStep_cons_nolab {α : Type} {r : SubjectRecord} (rest : List SubjectRecord)
    (f : SubjectRecord → α) (d : Dict α) (hr : r.hasLab = false) :
    attrStep (r :: rest) f d = attrStep rest f d := by
  simp [attrStep, labRecNames, List.filter_cons, hr]

theorem attrStep_cons_lab {α : Type} {r : SubjectRecord} {rest : List SubjectRecord}
    (f : SubjectRecord → α) (d : Dict α) (hr : r.hasLab = true)
    (hth : ∀ s ∈ rest, theoryName r.name ≠ s.name) :
    attrStep rest f (d.filter (fun p => !(p.1 == r.name)) ++ [(theoryName r.name, f r)]) =
      attrStep (r :: rest) f d := by
  have hmem : theoryName r.name ∉ labRecNames rest := by
    intro hm
    simp only [labRecNames, List.mem_map, List.mem_filter] at hm
    obtain ⟨s, ⟨hs, _⟩, e⟩ := hm
    exact hth s hs e.symm
  unfold attrStep
  rw [List.filter_append, List.filter_filter]
  have hpred :
      (fun p : String × α => (!((labRecNames rest).contains p.1)) && (!(p.1 == r.name))) =
        (fun p : String × α => !((labRecNames (r :: rest)).contains p.1)) := by
    funext p
    rw [labRecNames_cons_lab rest hr]
    rw [Bool.beq_eq_decide_eq]
    by_cases hpq : p.1 = r.name <;> simp [hpq, Bool.not_or, Bool.and_comm, eq_comm]
  rw [hpred]
  have hkeep :
      List.filter (fun p : String × α => !((labRecNames rest).contains p.1))
          [(theoryName r.name, f r)] = [(theoryName r.name, f r)] := by
    simp [hmem]
  rw [hkeep]
  simp [List.filter_cons, hr]

theorem derivedVars_cons (r : SubjectRecord) (rest : List SubjectRecord) :
    derivedVars (r :: rest) =
      (if r.hasLab then [theoryName r.name, labName r.name] else [r.name]) ++
        derivedVars rest := by
  simp [derivedVars]

theorem labPairs_cons_lab {r : SubjectRecord} (rest : List SubjectRecord)
    (hr : r.hasLab = true) :
    labPairs (r :: rest) = (labName r.name, theoryName r.name) :: labPairs rest := by
  simp [labPairs, List.filter_cons, hr]

theorem labPairs_cons_nolab {r : SubjectRecord} (rest : List SubjectRecord)
    (hr : r.hasLab = false) :
    labPairs (r :: rest) = labPairs rest := by
  simp [labPairs, List.filter_cons, hr]

theorem initDict_aux {α : Type} (f : SubjectRecord → α) :
    ∀ (rs : List SubjectRecord) (acc : Dict α),
      (rs.map (fun r => r.name)).Nodup →
      (∀ r ∈ rs, r.name ∉ dkeys acc) →
      rs.foldl (fun d r => dset d r.name (f r)) acc =
        acc ++ rs.map (fun r => (r.name, f r)) := by
  intro rs
  induction rs with
  | nil => intro acc _ _; simp
  | cons r rs ih =>
    intro acc hnd hfresh
    have hndt : (rs.map (fun r => r.name)).Nodup := by
      rw [List.map_cons, List.nodup_cons] at hnd; exact hnd.2
    have hhead : r.name ∉ rs.map (fun r => r.name) := by
      rw [List.map_cons, List.nodup_cons] at hnd; exact hnd.1
    have h1 : dset acc r.name (f r) = acc ++ [(r.name, f r)] :=
      dset_fresh acc r.name (f r) (hfresh r (List.mem_cons_self r rs))
    have hfresh2 : ∀ s ∈ rs, s.name ∉ dkeys (acc ++ [(r.name, f r)]) := by
      intro s hs
      rw [dkeys_append]
      simp only [List.mem_append, not_or]
      refine ⟨hfresh s (List.mem_cons_of_mem r hs), ?_⟩
      simp only [dkeys, List.map_cons, List.map_nil, List.mem_singleton]
      intro e
      exact hhead (e ▸ List.mem_map_of_mem (fun r => r.name) hs)
    rw [List.foldl_cons, h1, ih (acc ++ [(r.name, f r)]) hndt hfresh2]
    simp

theorem initDict_eq {α : Type} (rs : List SubjectRecord) (f : SubjectRecord → α)
    (h : (rs.map (fun r => r.name)).Nodup) :
    initDict rs f = rs.map (fun r => (r.name, f r)) := by
  have := initDict_aux f rs [] h (by intro r _; simp [dkeys])
  simpa [initDict] using this

theorem buildLoop_eq (checkLab : Dict Bool) :
    ∀ (rest : List SubjectRecord) (st : ExamsState),
      (∀ r ∈ rest, dget checkLab r.name = some r.hasLab) →
      (rest.map (fun r => r.name)).Nodup →
      (∀ r ∈ rest, dget st.semesters r.name = some r.semester) →
      (∀ r ∈ rest, dget st.professors r.name = some r.professor) →
      (∀ r ∈ rest, dget st.difficulties r.name = some r.difficult) →
      (∀ r ∈ rest, r.hasLab = true →
        theoryName r.name ∉ dkeys st.semesters ∧
        theoryName r.name ∉ dkeys st.professors ∧
        theoryName r.name ∉ dkeys st.difficulties ∧
        labName r.name ∉ dkeys st.laboratories) →
      (∀ r ∈ rest, r.hasLab = true → ∀ s ∈ rest, theoryName r.name ≠ s.name) →
      buildLoop checkLab (rest.map (fun r => r.name)) st = Except.ok
        { semesters := attrStep rest (fun r => r.semester) st.semesters
          professors := attrStep rest (fun r => r.professor) st.professors
          difficulties := attrStep rest (fun r => r.difficult) st.difficulties
          vars := st.vars ++ derivedVars rest
          laboratories := st.laboratories ++ labPairs rest } := by
  intro rest
  induction rest with
  | nil =>
    intro st _ _ _ _ _ _ _
    simp [buildLoop, attrStep_nil, derivedVars, labPairs]
  | cons r rest ih =>
    intro st hcl hnd h3 h4 h5 h6 h7
    have hrmem : r ∈ r :: rest := List.mem_cons_self r rest
    have hndh : r.name ∉ rest.map (fun r => r.name) := by
      rw [List.map_cons, List.nodup_cons] at hnd; exact hnd.1
    have hndt : (rest.map (fun r => r.name)).Nodup := by
      rw [List.map_cons, List.nodup_cons] at hnd; exact hnd.2
    have hnames : ∀ s ∈ rest, s.name ≠ r.name := by
      intro s hs e
      exact hndh (e ▸ List.mem_map_of_mem (fun r => r.name) hs)
    rw [List.map_cons]
    cases hl : r.hasLab with
    | false =>
      have hclr : dget checkLab r.name = some false := by rw [← hl]; exact hcl r hrmem
      have step : buildLoop checkLab (r.name :: rest.map (fun r => r.name)) st =
          buildLoop checkLab (rest.map (fun r => r.name))
            { st with vars := st.vars ++ [r.name] } := by
        conv_lhs => rw [buildLoop]
        rw [hclr]
      rw [step, ih { st with vars := st.vars ++ [r.name] }
        (fun s hs => hcl s (List.mem_cons_of_mem r hs)) hndt
        (fun s hs => h3 s (List.mem_cons_of_mem r hs))
        (fun s hs => h4 s (List.mem_cons_of_mem r hs))
        (fun s hs => h5 s (List.mem_cons_of_mem r hs))
        (fun s hs hsl => h6 s (List.mem_cons_of_mem r hs) hsl)
        (fun s hs hsl t ht => h7 s (List.mem_cons_of_mem r hs) hsl t (List.mem_cons_of_mem r ht))]
      simp only [Except.ok.injEq, ExamsState.mk.injEq]
      refine ⟨?_, ?_, ?_, ?_, ?_⟩
      · exact (attrStep_cons_nolab rest _ _ hl).symm
      · exact (attrStep_cons_nolab rest _ _ hl).symm
      · exact (attrStep_cons_nolab rest _ _ hl).symm
      · rw [derivedVars_cons, hl]
        simp
      · rw [labPairs_cons_nolab rest hl]
    | true =>
      have hclr : dget checkLab r.name = some true := by rw [← hl]; exact hcl r hrmem
      have hth : ∀ s ∈ rest, theoryName r.name ≠ s.name := fun s hs =>
        h7 r hrmem hl s (List.mem_cons_of_mem r hs)
      have h6r := h6 r hrmem hl
      have e1 : dpop st.semesters r.name =
          some (r.semester, st.semesters.filter (fun p => !(p.1 == r.name))) := by
        unfold dpop
        rw [h3 r hrmem]
      have e2 : dpop st.professors r.name =
          some (r.professor, st.professors.filter (fun p => !(p.1 == r.name))) := by
        unfold dpop
        rw [h4 r hrmem]
      have e3 : dpop st.difficulties r.name =
          some (r.difficult, st.difficulties.filter (fun p => !(p.1 == r.name))) := by
        unfold dpop
        rw [h5 r hrmem]
      have f1 : dset (st.semesters.filter (fun p => !(p.1 == r.name)))
            (theoryName r.name) r.semester =
          st.semesters.filter (fun p => !(p.1 == r.name)) ++ [(theoryName r.name, r.semester)] :=
        dset_fresh _ _ _ (fun hm => h6r.1 (dkeys_filter_subset _ _ hm))
      have f2 : dset (st.professors.filter (fun p => !(p.1 == r.name)))
            (theoryName r.name) r.professor =
          st.professors.filter (fun p => !(p.1 == r.name)) ++ [(theoryName r.name, r.professor)] :=
        dset_fresh _ _ _ (fun hm => h6r.2.1 (dkeys_filter_subset _ _ hm))
      have f3 : dset (st.difficulties.filter (fun p => !(p.1 == r.name)))
            (theoryName r.name) r.difficult =
          st.difficulties.filter (fun p => !(p.1 == r.name)) ++ [(theoryName r.name, r.difficult)] :=
        dset_fresh _ _ _ (fun hm => h6r.2.2.1 (dkeys_filter_subset _ _ hm))
      have f4 : dset st.laboratories (labName r.name) (theoryName r.name) =
          st.laboratories ++ [(labName r.name, theoryName r.name)] :=
        dset_fresh _ _ _ h6r.2.2.2
      have step : buildLoop checkLab (r.name :: rest.map (fun r => r.name)) st =
          buildLoop checkLab (rest.map (fun r => r.name))
            { semesters :=
                st.semesters.filter (fun p => !(p.1 == r.name)) ++
                  [(theoryName r.name, r.semester)]
              professors :=
                st.professors.filter (fun p => !(p.1 == r.name)) ++
                  [(theoryName r.name, r.professor)]
              difficulties :=
                st.difficulties.filter (fun p => !(p.1 == r.name)) ++
                  [(theoryName r.name, r.difficult)]
              vars := st.vars ++ [theoryName r.name, labName r.name]
              laboratories := st.laboratories ++ [(labName r.name, theoryName r.name)] } := by
        conv_lhs => rw [buildLoop]
        rw [hclr, e1, e2, e3]
        simp only [f1, f2, f3, f4]
      have hlook : ∀ {α : Type} (d : Dict α) (v : α) (s : SubjectRecord) (w : α), s ∈ rest →
          dget d s.name = some w →
          dget (d.filter (fun p => !(p.1 == r.name)) ++ [(theoryName r.name, v)]) s.name =
            some w := by
        intro α d v s w hs hd
        have hne : s.name ≠ r.name := hnames s hs
        refine dget_append_left ?_ _
        rw [dget_filter_ne d r.name s.name hne]
        exact hd
      have hkey : ∀ {α : Type} (d : Dict α) (v : α) (s : SubjectRecord), s ∈ rest →
          theoryName s.name ∉ dkeys d →
          theoryName s.name ∉
            dkeys (d.filter (fun p => !(p.1 == r.name)) ++ [(theoryName r.name, v)]) := by
        intro α d v s hs hd
        rw [dkeys_append]
        simp only [List.mem_append, not_or]
        refine ⟨fun hm => hd (dkeys_filter_subset _ _ hm), ?_⟩
        simp only [dkeys, List.map_cons, List.map_nil, List.mem_singleton]
        intro e
        exact hnames s hs (theoryName_inj e)
      rw [step, ih
        { semesters :=
            st.semesters.filter (fun p => !(p.1 == r.name)) ++
              [(theoryName r.name, r.semester)]
          professors :=
            st.professors.filter (fun p => !(p.1 == r.name)) ++
              [(theoryName r.name, r.professor)]
          difficulties :=
            st.difficulties.filter (fun p => !(p.1 == r.name)) ++
              [(theoryName r.name, r.difficult)]
          vars := st.vars ++ [theoryName r.name, labName r.name]
          laboratories := st.laboratories ++ [(labName r.name, theoryName r.name)] }
        (fun s hs => hcl s (List.mem_cons_of_mem r hs)) hndt
        (fun s hs => hlook st.semesters r.semester s s.semester hs
          (h3 s (List.mem_cons_of_mem r hs)))
        (fun s hs => hlook st.professors r.professor s s.professor hs
          (h4 s (List.mem_cons_of_mem r hs)))
        (fun s hs => hlook st.difficulties r.difficult s s.difficult hs
          (h5 s (List.mem_cons_of_mem r hs)))
        (fun s hs hsl => by
          have h6s := h6 s (List.mem_cons_of_mem r hs) hsl
          refine ⟨hkey st.semesters r.semester s hs h6s.1,
            hkey st.professors r.professor s hs h6s.2.1,
            hkey st.difficulties r.difficult s hs h6s.2.2.1, ?_⟩
          rw [dkeys_append]
          simp only [List.mem_append, not_or]
          refine ⟨h6s.2.2.2, ?_⟩
          simp only [dkeys, List.map_cons, List.map_nil, List.mem_singleton]
          intro e
          exact hnames s hs (labName_inj e))
        (fun s hs hsl t ht => h7 s (List.mem_cons_of_mem r hs) hsl t (List.mem_cons_of_mem r ht))]
      simp only [Except.ok.injEq, ExamsState.mk.injEq]
      refine ⟨?_, ?_, ?_, ?_, ?_⟩
      · exact attrStep_cons_lab (fun r => r.semester) st.semesters hl hth
      · exact attrStep_cons_lab (fun r => r.professor) st.professors hl hth
      · exact attrStep_cons_lab (fun r => r.difficult) st.difficulties hl hth
      · rw [derivedVars_cons, hl]
        simp
      · rw [labPairs_cons_lab rest hl]
        simp

theorem labRecNames_sub_names {rs : List SubjectRecord} {k : String}
    (h : k ∈ labRecNames rs) : k ∈ rs.map (fun r => r.name) := by
  simp only [labRecNames, List.mem_map, List.mem_filter] at h
  obtain ⟨s, ⟨hs, _⟩, e⟩ := h
  exact e ▸ List.mem_map_of_mem (fun r => r.name) hs

theorem contains_labRecNames {rs : List SubjectRecord}
    (hnd : (rs.map (fun r => r.name)).Nodup) {r : SubjectRecord} (hr : r ∈ rs) :
    (labRecNames rs).contains r.name = r.hasLab := by
  cases hb : r.hasLab with
  | true =>
    have hm : r.name ∈ labRecNames rs := by
      simp only [labRecNames, List.mem_map, List.mem_filter]
      exact ⟨r, ⟨hr, hb⟩, rfl⟩
    simp [hm]
  | false =>
    have hm : r.name ∉ labRecNames rs := by
      intro hm
      simp only [labRecNames, List.mem_map, List.mem_filter] at hm
      obtain ⟨s, ⟨hs, hsl⟩, e⟩ := hm
      have hsr : s = r := List.inj_on_of_nodup_map hnd hs hr e
      rw [hsr] at hsl
      exact absurd hsl (by rw [hb]; exact Bool.false_ne_true)
    simp [hm]

theorem attrStep_init {α : Type} (rs : List SubjectRecord) (f : SubjectRecord → α)
    (hnd : (rs.map (fun r => r.name)).Nodup) :
    attrStep rs f (rs.map (fun r => (r.name, f r))) = finalAttr rs f := by
  unfold attrStep finalAttr
  congr 1
  rw [List.filter_map]
  congr 1
  apply List.filter_congr
  intro r hr
  show (!((labRecNames rs).contains r.name)) = !r.hasLab
  rw [contains_labRecNames hnd hr]

/-- On a well-formed catalog, `Exams.__init__` runs without a
`KeyError` and produces exactly the state described by `builtState`:
variables in input order (Theory/Lab pairs adjacent), the three
attribute dictionaries keyed by plain subject names and Theory names,
and the lab-to-theory map. -/
theorem buildExams_eq (rs : List SubjectRecord) (h : ValidCatalog rs) :
    buildExams rs = Except.ok (builtState rs) := by
  obtain ⟨hnd, hcol⟩ := h
  unfold buildExams
  rw [initDict_eq rs (fun r => r.semester) hnd, initDict_eq rs (fun r => r.professor) hnd,
    initDict_eq rs (fun r => r.difficult) hnd]
  have hcl : ∀ r ∈ rs, dget (initDict rs (fun r => r.hasLab)) r.name = some r.hasLab := by
    intro r hr
    rw [initDict_eq rs (fun r => r.hasLab) hnd]
    exact dget_map_of_mem hnd hr
  have hget : ∀ {α : Type} (f : SubjectRecord → α), ∀ r ∈ rs,
      dget (rs.map (fun s => (s.name, f s))) r.name = some (f r) := by
    intro α f r hr
    exact dget_map_of_mem hnd hr
  have hfresh : ∀ {α : Type} (f : SubjectRecord → α), ∀ r ∈ rs, r.hasLab = true →
      theoryName r.name ∉ dkeys (rs.map (fun s => (s.name, f s))) := by
    intro α f r hr hl
    rw [dkeys_map]
    exact (hcol r hr hl).1
  rw [buildLoop_eq (initDict rs (fun r => r.hasLab)) rs
    { semesters := rs.map (fun r => (r.name, r.semester))
      professors := rs.map (fun r => (r.name, r.professor))
      difficulties := rs.map (fun r => (r.name, r.difficult))
      vars := []
      laboratories := [] }
    hcl hnd
    (fun r hr => hget (fun r => r.semester) r hr)
    (fun r hr => hget (fun r => r.professor) r hr)
    (fun r hr => hget (fun r => r.difficult) r hr)
    (fun r hr hl => ⟨hfresh (fun r => r.semester) r hr hl,
      hfresh (fun r => r.professor) r hr hl,
      hfresh (fun r => r.difficult) r hr hl, by simp [dkeys]⟩)
    (fun r hr hl s hs e => (hcol r hr hl).1 (e ▸ List.mem_map_of_mem (fun r => r.name) hs))]
  simp only [Except.ok.injEq]
  unfold builtState
  simp only [ExamsState.mk.injEq]
  refine ⟨attrStep_init rs (fun r => r.semester) hnd,
    attrStep_init rs (fun r => r.professor) hnd,
    attrStep_init rs (fun r => r.difficult) hnd, by simp, by simp⟩

/-! ## Facts about the built state -/

theorem dany_fst {α : Type} (d : Dict α) (k : String) :
    (d.any (fun p => p.1 == k) = true) ↔ k ∈ dkeys d := by
  simp [List.any_eq_true, dkeys, List.mem_map]

theorem dany_snd {α : Type} (d : Dict α) (v : α) [BEq α] [LawfulBEq α] :
    (d.any (fun p => p.2 == v) = true) ↔ v ∈ dvalues d := by
  simp [List.any_eq_true, dvalues, List.mem_map]

theorem dvalues_map {α β : Type} (l : List β) (g : β → String) (f : β → α) :
    dvalues (l.map (fun x => (g x, f x))) = l.map f := by
  simp [dvalues, List.map_map]

theorem dkeys_labPairs (rs : List SubjectRecord) :
    dkeys (labPairs rs) = (rs.filter (fun r => r.hasLab)).map (fun r => labName r.name) := by
  unfold labPairs
  exact dkeys_map _ _ _

theorem dvalues_labPairs (rs : List SubjectRecord) :
    dvalues (labPairs rs) =
      (rs.filter (fun r => r.hasLab)).map (fun r => theoryName r.name) := by
  unfold labPairs
  exact dvalues_map _ _ _

theorem mem_derivedVars {rs : List SubjectRecord} {v : String} :
    v ∈ derivedVars rs ↔
      ∃ r ∈ rs, (r.hasLab = false ∧ v = r.name) ∨
        (r.hasLab = true ∧ (v = theoryName r.name ∨ v = labName r.name)) := by
  simp only [derivedVars, List.mem_flatMap]
  constructor
  · rintro ⟨r, hr, hv⟩
    cases hb : r.hasLab with
    | false =>
      rw [hb] at hv
      simp at hv
      exact ⟨r, hr, Or.inl ⟨hb, hv⟩⟩
    | true =>
      rw [hb] at hv
      simp at hv
      exact ⟨r, hr, Or.inr ⟨hb, hv⟩⟩
  · rintro ⟨r, hr, ⟨hb, hv⟩ | ⟨hb, hv⟩⟩
    · exact ⟨r, hr, by rw [hb, hv]; simp⟩
    · refine ⟨r, hr, ?_⟩
      rcases hv with hv | hv <;> rw [hb, hv] <;> simp

theorem validCatalog_tail {r : SubjectRecord} {rest : List SubjectRecord}
    (h : ValidCatalog (r :: rest)) : ValidCatalog rest := by
  obtain ⟨hnd, hcol⟩ := h
  rw [List.map_cons, List.nodup_cons] at hnd
  refine ⟨hnd.2, fun s hs hl => ?_⟩
  have hc := hcol s (List.mem_cons_of_mem r hs) hl
  rw [List.map_cons] at hc
  constructor
  · intro hm
    exact hc.1 (List.mem_cons_of_mem _ hm)
  · intro hm
    exact hc.2 (List.mem_cons_of_mem _ hm)

theorem nodup_filter_names {rs : List SubjectRecord} (q : SubjectRecord → Bool)
    (hnd : (rs.map (fun r => r.name)).Nodup) :
    ((rs.filter q).map (fun r => r.name)).Nodup :=
  List.Nodup.sublist (List.Sublist.map _ (List.filter_sublist rs)) hnd

theorem nodup_theoryNames {rs : List SubjectRecord}
    (hnd : (rs.map (fun r => r.name)).Nodup) :
    ((rs.filter (fun r => r.hasLab)).map (fun r => theoryName r.name)).Nodup := by
  have h1 := nodup_filter_names (fun r => r.hasLab) hnd
  have h2 : (rs.filter (fun r => r.hasLab)).map (fun r => theoryName r.name) =
      ((rs.filter (fun r => r.hasLab)).map (fun r => r.name)).map theoryName := by
    simp [List.map_map]
  rw [h2]
  exact h1.map (fun a b e => theoryName_inj e)

theorem nodup_labNames {rs : List SubjectRecord}
    (hnd : (rs.map (fun r => r.name)).Nodup) :
    ((rs.filter (fun r => r.hasLab)).map (fun r => labName r.name)).Nodup := by
  have h1 := nodup_filter_names (fun r => r.hasLab) hnd
  have h2 : (rs.filter (fun r => r.hasLab)).map (fun r => labName r.name) =
      ((rs.filter (fun r => r.hasLab)).map (fun r => r.name)).map labName := by
    simp [List.map_map]
  rw [h2]
  exact h1.map (fun a b e => labName_inj e)

theorem finalAttr_nolab {α : Type} {rs : List SubjectRecord} (f : SubjectRecord → α)
    (h : ValidCatalog rs) {r : SubjectRecord} (hr : r ∈ rs) (hb : r.hasLab = false) :
    dget (finalAttr rs f) r.name = some (f r) := by
  unfold finalAttr
  apply dget_append_left
  have hmem : r ∈ rs.filter (fun r => !r.hasLab) :=
    List.mem_filter.mpr ⟨hr, by rw [hb]; rfl⟩
  exact dget_map_of_mem (nodup_filter_names _ h.1) hmem

theorem finalAttr_lab_theory {α : Type} {rs : List SubjectRecord} (f : SubjectRecord → α)
    (h : ValidCatalog rs) {r : SubjectRecord} (hr : r ∈ rs) (hb : r.hasLab = true) :
    dget (finalAttr rs f) (theoryName r.name) = some (f r) := by
  unfold finalAttr
  have hni : theoryName r.name ∉
      dkeys ((rs.filter (fun r => !r.hasLab)).map (fun r => (r.name, f r))) := by
    rw [dkeys_map]
    intro hm
    rw [List.mem_map] at hm
    obtain ⟨s, hs, e⟩ := hm
    exact (h.2 r hr hb).1
      (e ▸ List.mem_map_of_mem (fun r => r.name) (List.mem_filter.mp hs).1)
  rw [dget_append_right hni]
  exact dget_map_of_mem (nodup_theoryNames h.1) (List.mem_filter.mpr ⟨hr, hb⟩)

theorem finalAttr_lab_origName {α : Type} {rs : List SubjectRecord} (f : SubjectRecord → α)
    (h : ValidCatalog rs) {r : SubjectRecord} (hr : r ∈ rs) (hb : r.hasLab = true) :
    dget (finalAttr rs f) r.name = none := by
  rw [dget_eq_none]
  unfold finalAttr
  rw [dkeys_append, dkeys_map, dkeys_map, List.mem_append]
  rintro (hm | hm)
  · rw [List.mem_map] at hm
    obtain ⟨s, hs, e⟩ := hm
    have hs2 := List.mem_filter.mp hs
    have hsr : s = r := List.inj_on_of_nodup_map h.1 hs2.1 hr e
    have := hs2.2
    rw [hsr, hb] at this
    simp at this
  · rw [List.mem_map] at hm
    obtain ⟨s, hs, e⟩ := hm
    have hs2 := List.mem_filter.mp hs
    exact (h.2 s hs2.1 hs2.2).1 (e ▸ List.mem_map_of_mem (fun r => r.name) hr)

theorem finalAttr_labName_none {α : Type} {rs : List SubjectRecord} (f : SubjectRecord → α)
    (h : ValidCatalog rs) {r : SubjectRecord} (hr : r ∈ rs) (hb : r.hasLab = true) :
    dget (finalAttr rs f) (labName r.name) = none := by
  rw [dget_eq_none]
  unfold finalAttr
  rw [dkeys_append, dkeys_map, dkeys_map, List.mem_append]
  rintro (hm | hm)
  · rw [List.mem_map] at hm
    obtain ⟨s, hs, e⟩ := hm
    exact (h.2 r hr hb).2
      (e ▸ List.mem_map_of_mem (fun r => r.name) (List.mem_filter.mp hs).1)
  · rw [List.mem_map] at hm
    obtain ⟨s, _, e⟩ := hm
    exact theoryName_ne_labName s.name r.name e

theorem finalAttr_isSome_iff {α : Type} {rs : List SubjectRecord} (f : SubjectRecord → α)
    (h : ValidCatalog rs) (k : String) :
    (dget (finalAttr rs f) k).isSome = true ↔
      (k ∈ derivedVars rs ∧ k ∉ dkeys (labPairs rs)) := by
  rw [dget_isSome]
  unfold finalAttr
  rw [dkeys_append, dkeys_map, dkeys_map, List.mem_append, dkeys_labPairs]
  constructor
  · rintro (hm | hm)
    · rw [List.mem_map] at hm
      obtain ⟨s, hs, e⟩ := hm
      have hs2 := List.mem_filter.mp hs
      have hsl : s.hasLab = false := by simpa using hs2.2
      constructor
      · rw [mem_derivedVars]
        exact ⟨s, hs2.1, Or.inl ⟨hsl, e.symm⟩⟩
      · intro hk
        rw [List.mem_map] at hk
        obtain ⟨t, ht, et⟩ := hk
        have ht2 := List.mem_filter.mp ht
        exact (h.2 t ht2.1 ht2.2).2
          ((e.trans et.symm) ▸ List.mem_map_of_mem (fun r => r.name) hs2.1)
    · rw [List.mem_map] at hm
      obtain ⟨s, hs, e⟩ := hm
      have hs2 := List.mem_filter.mp hs
      constructor
      · rw [mem_derivedVars]
        exact ⟨s, hs2.1, Or.inr ⟨hs2.2, Or.inl e.symm⟩⟩
      · intro hk
        rw [List.mem_map] at hk
        obtain ⟨t, _, et⟩ := hk
        exact theoryName_ne_labName s.name t.name (e.trans et.symm)
  · rintro ⟨hdv, hnk⟩
    rw [mem_derivedVars] at hdv
    obtain ⟨s, hs, ⟨hb, e⟩ | ⟨hb, e⟩⟩ := hdv
    · left
      rw [List.mem_map]
      exact ⟨s, List.mem_filter.mpr ⟨hs, by rw [hb]; rfl⟩, e.symm⟩
    · rcases e with e | e
      · right
        rw [List.mem_map]
        exact ⟨s, List.mem_filter.mpr ⟨hs, hb⟩, e.symm⟩
      · exact absurd (by
          rw [List.mem_map]
          exact ⟨s, List.mem_filter.mpr ⟨hs, hb⟩, e.symm⟩) hnk

theorem labPairs_lookup {rs : List SubjectRecord} (h : ValidCatalog rs)
    {r : SubjectRecord} (hr : r ∈ rs) (hb : r.hasLab = true) :
    dget (labPairs rs) (labName r.name) = some (theoryName r.name) := by
  unfold labPairs
  exact dget_map_of_mem (nodup_labNames h.1) (List.mem_filter.mpr ⟨hr, hb⟩)

theorem labPairs_eq_some {rs : List SubjectRecord} {X Y : String}
    (hx : dget (labPairs rs) X = some Y) :
    ∃ r ∈ rs, r.hasLab = true ∧ X = labName r.name ∧ Y = theoryName r.name := by
  unfold labPairs at hx
  obtain ⟨r, hr, e1, e2⟩ := dget_map_eq_some hx
  have h2 := List.mem_filter.mp hr
  exact ⟨r, h2.1, h2.2, e1.symm, e2.symm⟩

theorem labPairs_theory_none {rs : List SubjectRecord} (n : String) :
    dget (labPairs rs) (theoryName n) = none := by
  rw [dget_eq_none, dkeys_labPairs]
  intro hm
  rw [List.mem_map] at hm
  obtain ⟨s, _, e⟩ := hm
  exact theoryName_ne_labName n s.name e.symm

theorem labPairs_acyclic {rs : List SubjectRecord} {X Y : String}
    (hx : dget (labPairs rs) X = some Y) : dget (labPairs rs) Y = none := by
  obtain ⟨r, _, _, _, e⟩ := labPairs_eq_some hx
  rw [e]
  exact labPairs_theory_none r.name

theorem mem_dvalues_labPairs {rs : List SubjectRecord} {v : String} :
    v ∈ dvalues (labPairs rs) ↔ ∃ r ∈ rs, r.hasLab = true ∧ v = theoryName r.name := by
  rw [dvalues_labPairs]
  constructor
  · intro hm
    rw [List.mem_map] at hm
    obtain ⟨s, hs, e⟩ := hm
    have hs2 := List.mem_filter.mp hs
    exact ⟨s, hs2.1, hs2.2, e.symm⟩
  · rintro ⟨r, hr, hb, e⟩
    rw [List.mem_map]
    exact ⟨r, List.mem_filter.mpr ⟨hr, hb⟩, e.symm⟩

/-! ## Domains -/

theorem dget_map_update_self {α : Type} (d : Dict α) (k : String) (v : α) :
    dget (d.map (fun p => if p.1 = k then (k, v) else p)) k =
      if d.any (fun p => p.1 == k) then some v else none := by
  induction d with
  | nil => rfl
  | cons q d ih =>
    rw [List.map_cons, List.any_cons]
    by_cases hq : q.1 = k
    · rw [if_pos hq, dget_cons]
      simp [hq]
    · rw [if_neg hq, dget_cons, if_neg hq, ih]
      have hb : (q.1 == k) = false := beq_eq_false_iff_ne.mpr hq
      rw [hb, Bool.false_or]

theorem dget_map_update_ne {α : Type} (d : Dict α) (k q : String) (v : α) (hne : q ≠ k) :
    dget (d.map (fun p => if p.1 = k then (k, v) else p)) q = dget d q := by
  induction d with
  | nil => rfl
  | cons p d ih =>
    rw [List.map_cons]
    by_cases hp : p.1 = k
    · rw [if_pos hp, dget_cons, dget_cons, if_neg (Ne.symm hne), if_neg, ih]
      rw [hp]
      exact Ne.symm hne
    · rw [if_neg hp, dget_cons, dget_cons, ih]

theorem dget_dset_self {α : Type} (d : Dict α) (k : String) (v : α) :
    dget (dset d k v) k = some v := by
  unfold dset
  by_cases hc : d.any (fun p => p.1 == k) = true
  · rw [if_pos hc, dget_map_update_self, if_pos hc]
  · rw [if_neg hc, dget_append]
    have hnone : dget d k = none := by
      rw [dget_eq_none]
      intro hm
      exact hc ((dany_fst d k).mpr hm)
    rw [hnone, Option.none_or, dget_cons]
    simp

theorem dget_dset_ne {α : Type} (d : Dict α) (k q : String) (v : α) (hne : q ≠ k) :
    dget (dset d k v) q = dget d q := by
  unfold dset
  by_cases hc : d.any (fun p => p.1 == k) = true
  · rw [if_pos hc]
    exact dget_map_update_ne d k q v hne
  · rw [if_neg hc, dget_append]
    have h1 : dget [(k, v)] q = none := by
      rw [dget_cons, if_neg (Ne.symm hne)]
      rfl
    rw [h1]
    simp

theorem dget_domainsOf {E : ExamsState} {v : String} (hv : v ∈ E.vars) :
    dget (domainsOf E) v = some fullDomain := by
  suffices h : ∀ (l : List String) (acc : Dict (List Val)),
      (v ∈ l ∨ dget acc v = some fullDomain) →
      dget (l.foldl (fun d w => dset d w fullDomain) acc) v = some fullDomain by
    exact h E.vars [] (Or.inl hv)
  intro l
  induction l with
  | nil =>
    intro acc h
    rcases h with h | h
    · cases h
    · exact h
  | cons w l ih =>
    intro acc h
    rw [List.foldl_cons]
    apply ih
    by_cases e : v = w
    · right
      rw [e]
      exact dget_dset_self acc w fullDomain
    · rcases h with h | h
      · rcases List.mem_cons.mp h with h1 | h1
        · exact absurd h1 e
        · left; exact h1
      · right
        rw [dget_dset_ne acc w v fullDomain e]
        exact h

theorem fullDomain_length : fullDomain.length = 63 := by decide

theorem mem_fullDomain (p : Val) : p ∈ fullDomain ↔ p.1 < 21 ∧ p.2 < 3 := by
  simp only [fullDomain, List.mem_flatMap, List.mem_map, List.mem_range]
  constructor
  · rintro ⟨i, hi, j, hj, e⟩
    rw [← e]
    exact ⟨hi, hj⟩
  · rintro ⟨h1, h2⟩
    exact ⟨p.1, h1, p.2, h2, rfl⟩

/-! ## The predicate lists of a built state -/

theorem builtState_labKey_lab {rs : List SubjectRecord} {r : SubjectRecord}
    (hr : r ∈ rs) (hb : r.hasLab = true) :
    ((labPairs rs).any (fun p => p.1 == labName r.name)) = true := by
  refine (dany_fst _ _).mpr ?_
  rw [dkeys_labPairs, List.mem_map]
  exact ⟨r, List.mem_filter.mpr ⟨hr, hb⟩, rfl⟩

theorem builtState_labKey_theory {rs : List SubjectRecord} (n : String) :
    ((labPairs rs).any (fun p => p.1 == theoryName n)) = false := by
  cases hc : (labPairs rs).any (fun p => p.1 == theoryName n) with
  | false => rfl
  | true =>
    exfalso
    have := (dany_fst _ _).mp hc
    rw [dkeys_labPairs, List.mem_map] at this
    obtain ⟨s, _, e⟩ := this
    exact theoryName_ne_labName n s.name e.symm

theorem builtState_labKey_plain {rs : List SubjectRecord} (h : ValidCatalog rs)
    {r : SubjectRecord} (hr : r ∈ rs) :
    ((labPairs rs).any (fun p => p.1 == r.name)) = false := by
  cases hc : (labPairs rs).any (fun p => p.1 == r.name) with
  | false => rfl
  | true =>
    exfalso
    have := (dany_fst _ _).mp hc
    rw [dkeys_labPairs, List.mem_map] at this
    obtain ⟨s, hsm, e⟩ := this
    have hs2 := List.mem_filter.mp hsm
    exact (h.2 s hs2.1 hs2.2).2 (e ▸ List.mem_map_of_mem (fun r => r.name) hr)

theorem builtState_labValue_theory {rs : List SubjectRecord} {r : SubjectRecord}
    (hr : r ∈ rs) (hb : r.hasLab = true) :
    ((labPairs rs).any (fun p => p.2 == theoryName r.name)) = true :=
  (dany_snd _ _).mpr (mem_dvalues_labPairs.mpr ⟨r, hr, hb, rfl⟩)

theorem builtState_labValue_plain {rs : List SubjectRecord} (h : ValidCatalog rs)
    {r : SubjectRecord} (hr : r ∈ rs) :
    ((labPairs rs).any (fun p => p.2 == r.name)) = false := by
  cases hc : (labPairs rs).any (fun p => p.2 == r.name) with
  | false => rfl
  | true =>
    exfalso
    obtain ⟨s, hsm, hsl, e⟩ := mem_dvalues_labPairs.mp ((dany_snd _ _).mp hc)
    exact (h.2 s hsm hsl).1 (e ▸ List.mem_map_of_mem (fun r => r.name) hr)

theorem varToCons_lab {rs : List SubjectRecord} {r : SubjectRecord}
    (hr : r ∈ rs) (hb : r.hasLab = true) :
    varToCons (builtState rs) (labName r.name) = some [PTag.slot, PTag.lab] := by
  have hk := builtState_labKey_lab hr hb
  simp only [varToCons, builtState]
  simp only [hk]
  simp

theorem varToCons_theory {rs : List SubjectRecord} (h : ValidCatalog rs) {r : SubjectRecord}
    (hr : r ∈ rs) (hb : r.hasLab = true) :
    varToCons (builtState rs) (theoryName r.name) =
      some ([PTag.slot, PTag.lab, PTag.semester, PTag.professor] ++
        (if r.difficult then [PTag.difficulty] else [])) := by
  have hk := @builtState_labKey_theory rs r.name
  have hv := builtState_labValue_theory hr hb
  have hd : dget (builtState rs).difficulties (theoryName r.name) = some r.difficult :=
    finalAttr_lab_theory (fun r => r.difficult) h hr hb
  simp only [varToCons, builtState] at *
  simp only [hk, hv, hd]
  simp

theorem varToCons_plain {rs : List SubjectRecord} (h : ValidCatalog rs) {r : SubjectRecord}
    (hr : r ∈ rs) (hb : r.hasLab = false) :
    varToCons (builtState rs) r.name =
      some ([PTag.slot, PTag.semester, PTag.professor] ++
        (if r.difficult then [PTag.difficulty] else [])) := by
  have hk := builtState_labKey_plain h hr
  have hv := builtState_labValue_plain h hr
  have hd : dget (builtState rs).difficulties r.name = some r.difficult :=
    finalAttr_nolab (fun r => r.difficult) h hr hb
  simp only [varToCons, builtState] at *
  simp only [hk, hv, hd]
  simp

/-- On a well-formed catalog the emitted variable names are pairwise
distinct. -/
theorem derivedVars_nodup : ∀ (rs : List SubjectRecord), ValidCatalog rs →
    (derivedVars rs).Nodup := by
  intro rs
  induction rs with
  | nil => intro _; simp [derivedVars]
  | cons r rest ih =>
    intro h
    have htail := validCatalog_tail h
    obtain ⟨hnd, hcol⟩ := h
    have hndh : r.name ∉ rest.map (fun r => r.name) := by
      rw [List.map_cons, List.nodup_cons] at hnd
      exact hnd.1
    rw [derivedVars_cons]
    apply List.Nodup.append
    · cases hb : r.hasLab with
      | false => simp
      | true => simp [theoryName_ne_labName r.name r.name]
    · exact ih htail
    · intro a ha hmem
      rw [mem_derivedVars] at hmem
      obtain ⟨s, hs, hsdes⟩ := hmem
      have hsnm : s.name ∈ List.map (fun r => r.name) (r :: rest) :=
        List.mem_cons_of_mem _ (List.mem_map_of_mem (fun r => r.name) hs)
      have hrnm : r.name ∈ List.map (fun r => r.name) (r :: rest) := by
        rw [List.map_cons]
        exact List.mem_cons_self _ _
      have hne : s.name ≠ r.name := fun e =>
        hndh (e ▸ List.mem_map_of_mem (fun r => r.name) hs)
      have hcr := hcol r (List.mem_cons_self r rest)
      have hcs := hcol s (List.mem_cons_of_mem r hs)
      cases hb : r.hasLab with
      | false =>
        rw [hb] at ha
        simp at ha
        rcases hsdes with ⟨hbs, es⟩ | ⟨hbs, es⟩
        · exact hne (es.symm.trans ha)
        · rcases es with es | es
          · apply (hcs hbs).1
            rw [es.symm.trans ha]
            exact hrnm
          · apply (hcs hbs).2
            rw [es.symm.trans ha]
            exact hrnm
      | true =>
        rw [hb] at ha
        simp at ha
        rcases ha with ha | ha <;> rcases hsdes with ⟨hbs, es⟩ | ⟨hbs, es⟩
        · have e1 : theoryName r.name = s.name := ha.symm.trans es
          apply (hcr hb).1
          rw [e1]
          exact hsnm
        · rcases es with es | es
          · exact hne (theoryName_inj (ha.symm.trans es)).symm
          · exact theoryName_ne_labName r.name s.name (ha.symm.trans es)
        · have e1 : labName r.name = s.name := ha.symm.trans es
          apply (hcr hb).2
          rw [e1]
          exact hsnm
        · rcases es with es | es
          · exact theoryName_ne_labName s.name r.name (ha.symm.trans es).symm
          · exact hne (labName_inj (ha.symm.trans es)).symm

/-! ## Bridging lemmas for the claims -/

theorem builtState_of_ok {rs : List SubjectRecord} {E : ExamsState} (h : ValidCatalog rs)
    (hE : buildExams rs = Except.ok E) : E = builtState rs := by
  rw [buildExams_eq rs h] at hE
  exact (Except.ok.inj hE).symm

theorem semester_constraint_some {sem : Dict Int} {A B : String} {sA sB : Int}
    (hA : dget sem A = some sA) (hB : dget sem B = some sB) (a b : Val) :
    semester_constraint sem A a B b = some (decide (sA ≠ sB) || decide (a.1 ≠ b.1)) := by
  unfold semester_constraint
  rw [hA, hB]

theorem semester_constraint_none_right {sem : Dict Int} {A B : String}
    (hB : dget sem B = none) (a b : Val) :
    semester_constraint sem A a B b = none := by
  unfold semester_constraint
  rw [hB]
  rcases dget sem A with _ | v <;> rfl

theorem professor_constraint_some {prof : Dict String} {A B : String} {pA pB : String}
    (hA : dget prof A = some pA) (hB : dget prof B = some pB) (a b : Val) :
    professor_constraint prof A a B b = some (decide (pA ≠ pB) || decide (a.1 ≠ b.1)) := by
  unfold professor_constraint
  rw [hA, hB]

theorem professor_constraint_none_right {prof : Dict String} {A B : String}
    (hB : dget prof B = none) (a b : Val) :
    professor_constraint prof A a B b = none := by
  unfold professor_constraint
  rw [hB]
  rcases dget prof A with _ | v <;> rfl

/-! ## Claims -/

/-- C4: the lab-ordering predicate holds, for a pair where one variable
is the registered lab of the other (in either argument order), exactly
when the Lab sits on the same day as its Theory in the slot right after
it; and it returns true for every pair where neither variable is the
registered partner of the other. -/
theorem c4_lab_ordering (labs : Dict String) (A B : String) (a b : Val) :
    (dget labs A = some B →
      (lab_constraint labs A a B b = true ↔ (a.1 = b.1 ∧ a.2 = b.2 + 1))) ∧
    (dget labs A ≠ some B → dget labs B = some A →
      (lab_constraint labs A a B b = true ↔ (b.1 = a.1 ∧ b.2 = a.2 + 1))) ∧
    (dget labs A ≠ some B → dget labs B ≠ some A →
      lab_constraint labs A a B b = true) := by
  refine ⟨?_, ?_, ?_⟩
  · intro h1
    unfold lab_constraint
    rw [if_pos h1]
    simp
  · intro h1 h2
    unfold lab_constraint
    rw [if_neg h1, if_pos h2]
    simp
  · intro h1 h2
    unfold lab_constraint
    rw [if_neg h1, if_neg h2]

/-- Witness for C4 on the scenario catalog: the Lab/Theory pair of
"Algorithms" in both argument orders, and an unrelated pair. -/
theorem c4_lab_ordering_witness :
    lab_constraint (builtState catalog2).laboratories "Algorithms Lab" (3, 1)
        "Algorithms Theory" (3, 0) = true ∧
    lab_constraint (builtState catalog2).laboratories "Algorithms Theory" (3, 0)
        "Algorithms Lab" (3, 1) = true ∧
    lab_constraint (builtState catalog2).laboratories "History" (0, 0)
        "Algorithms Theory" (5, 2) = true := by
  refine ⟨?_, ?_, ?_⟩
  · exact ((c4_lab_ordering (builtState catalog2).laboratories "Algorithms Lab"
      "Algorithms Theory" (3, 1) (3, 0)).1 (by decide)).mpr (by decide)
  · exact ((c4_lab_ordering (builtState catalog2).laboratories "Algorithms Theory"
      "Algorithms Lab" (3, 0) (3, 1)).2.1 (by decide) (by decide)).mpr (by decide)
  · exact (c4_lab_ordering (builtState catalog2).laboratories "History"
      "Algorithms Theory" (0, 0) (5, 2)).2.2 (by decide) (by decide)

/-- C5: when the Theory variable of a Lab/Theory pair is assigned a
value in slot 2, the lab-ordering predicate evaluates to false (a total
boolean, not an error) for every domain value of the Lab variable, in
both argument orders. -/
theorem c5_lab_slot2 (labs : Dict String) (L T : String) (a b : Val)
    (hLT : dget labs L = some T) (hTL : dget labs T ≠ some L)
    (hb : b.2 = 2) (ha : a ∈ fullDomain) :
    lab_constraint labs L a T b = false ∧ lab_constraint labs T b L a = false := by
  have ha3 : a.2 < 3 := ((mem_fullDomain a).mp ha).2
  have hne : ¬(a.1 = b.1 ∧ a.2 = b.2 + 1) := by
    rintro ⟨_, e⟩
    omega
  constructor
  · unfold lab_constraint
    rw [if_pos hLT]
    exact decide_eq_false hne
  · unfold lab_constraint
    rw [if_neg hTL, if_pos hLT]
    exact decide_eq_false hne

/-- Witness for C5: "Algorithms Theory" at (5,2) makes lab-ordering
false for the Lab value (5,0). -/
theorem c5_lab_slot2_witness :
    lab_constraint (builtState catalog2).laboratories "Algorithms Lab" (5, 0)
        "Algorithms Theory" (5, 2) = false ∧
    lab_constraint (builtState catalog2).laboratories "Algorithms Theory" (5, 2)
        "Algorithms Lab" (5, 0) = false :=
  c5_lab_slot2 (builtState catalog2).laboratories "Algorithms Lab" "Algorithms Theory"
    (5, 0) (5, 2) (by decide) (by decide) (by decide) (by decide)

/-- C8: each of the five constraint predicates of a built instance is
symmetric under exchange of its two (variable, value) arguments; the
attribute-dependent ones agree as `Option` results, so in particular
whenever both variables carry the attribute the two orders yield the
same boolean. -/
theorem c8_symmetry (rs : List SubjectRecord) (h : ValidCatalog rs) (E : ExamsState)
    (hE : buildExams rs = Except.ok E) (A B : String) (a b : Val) :
    slot_constraint A a B b = slot_constraint B b A a ∧
    lab_constraint E.laboratories A a B b = lab_constraint E.laboratories B b A a ∧
    semester_constraint E.semesters A a B b = semester_constraint E.semesters B b A a ∧
    professor_constraint E.professors A a B b = professor_constraint E.professors B b A a ∧
    difficulty_constraint A a B b = difficulty_constraint B b A a := by
  have hEb := builtState_of_ok h hE
  subst hEb
  refine ⟨?_, ?_, ?_, ?_, ?_⟩
  · unfold slot_constraint
    exact decide_eq_decide.mpr ne_comm
  · by_cases h1 : dget (builtState rs).laboratories A = some B
    · have h2 : dget (builtState rs).laboratories B = none := labPairs_acyclic h1
      have h2ne : dget (builtState rs).laboratories B ≠ some A := by
        rw [h2]
        exact fun e => Option.noConfusion e
      unfold lab_constraint
      rw [if_pos h1, if_neg h2ne, if_pos h1]
    · by_cases h2 : dget (builtState rs).laboratories B = some A
      · unfold lab_constraint
        rw [if_neg h1, if_pos h2, if_pos h2]
      · unfold lab_constraint
        rw [if_neg h1, if_neg h2, if_neg h2, if_neg h1]
  · unfold semester_constraint
    rcases dget (builtState rs).semesters A with _ | sA <;>
      rcases dget (builtState rs).semesters B with _ | sB
    · rfl
    · rfl
    · rfl
    · show some (decide (sA ≠ sB) || decide (a.1 ≠ b.1)) =
          some (decide (sB ≠ sA) || decide (b.1 ≠ a.1))
      rw [decide_eq_decide.mpr (@ne_comm _ sA sB), decide_eq_decide.mpr (@ne_comm _ a.1 b.1)]
  · unfold professor_constraint
    rcases dget (builtState rs).professors A with _ | pA <;>
      rcases dget (builtState rs).professors B with _ | pB
    · rfl
    · rfl
    · rfl
    · show some (decide (pA ≠ pB) || decide (a.1 ≠ b.1)) =
          some (decide (pB ≠ pA) || decide (b.1 ≠ a.1))
      rw [decide_eq_decide.mpr (@ne_comm _ pA pB), decide_eq_decide.mpr (@ne_comm _ a.1 b.1)]
  · unfold difficulty_constraint
    have e : ((a.1 : Int) - b.1).natAbs = ((b.1 : Int) - a.1).natAbs := by
      rw [← Int.natAbs_neg ((a.1 : Int) - b.1), neg_sub]
    rw [e]

/-- Witness for C8 on the scenario catalog at a concrete pair. -/
theorem c8_symmetry_witness :
    slot_constraint "History" (0, 0) "Algorithms Theory" (1, 2) =
      slot_constraint "Algorithms Theory" (1, 2) "History" (0, 0) ∧
    lab_constraint (builtState catalog2).laboratories "History" (0, 0)
        "Algorithms Theory" (1, 2) =
      lab_constraint (builtState catalog2).laboratories "Algorithms Theory" (1, 2)
        "History" (0, 0) ∧
    semester_constraint (builtState catalog2).semesters "History" (0, 0)
        "Algorithms Theory" (1, 2) =
      semester_constraint (builtState catalog2).semesters "Algorithms Theory" (1, 2)
        "History" (0, 0) ∧
    professor_constraint (builtState catalog2).professors "History" (0, 0)
        "Algorithms Theory" (1, 2) =
      professor_constraint (builtState catalog2).professors "Algorithms Theory" (1, 2)
        "History" (0, 0) ∧
    difficulty_constraint "History" (0, 0) "Algorithms Theory" (1, 2) =
      difficulty_constraint "Algorithms Theory" (1, 2) "History" (0, 0) :=
  c8_symmetry catalog2 (by decide) (builtState catalog2) (by rfl)
    "History" "Algorithms Theory" (0, 0) (1, 2)

/-- C1 counterexample: in the scenario catalog, difficulty-separation
is attached to "Algorithms Theory", whose neighbor "Algorithms Lab" is
a Lab variable, and evaluating it on the pair with values (0,0)/(0,1)
returns false — so a pair involving a Lab variable IS restricted by
difficulty-separation, contrary to the claim.  The values (0,0)/(0,1)
are exactly the ones lab-ordering forces, so the code even makes every
difficult lab-bearing subject unschedulable. -/
theorem c1_difficulty_lab_pair_restricted :
    buildExams catalog2 = Except.ok (builtState catalog2) ∧
    varToCons (builtState catalog2) "Algorithms Theory" =
      some [PTag.slot, PTag.lab, PTag.semester, PTag.professor, PTag.difficulty] ∧
    "Algorithms Lab" ∈ dkeys (builtState catalog2).laboratories ∧
    "Algorithms Lab" ∈ neighborsOf (builtState catalog2) "Algorithms Theory" ∧
    difficulty_constraint "Algorithms Theory" (0, 0) "Algorithms Lab" (0, 1) = false ∧
    lab_constraint (builtState catalog2).laboratories "Algorithms Lab" (0, 1)
      "Algorithms Theory" (0, 0) = true :=
  ⟨by rfl, by decide, by decide, by decide, by decide, by decide⟩

/-- C1 amended: difficulty-separation is attached exactly to the
non-Lab variables whose difficulty flag is true, and when evaluated it
holds iff the assigned days are at least 2 apart — regardless of the
kind (Lab or not) or difficulty of the second variable, so pairs whose
carrier is a difficult non-Lab variable are restricted even when the
other variable is a Lab variable. -/
theorem c1_difficulty_attachment (rs : List SubjectRecord) (h : ValidCatalog rs)
    (E : ExamsState) (hE : buildExams rs = Except.ok E) :
    (∀ r ∈ rs, r.hasLab = true →
      (∀ l, varToCons E (labName r.name) = some l → PTag.difficulty ∉ l) ∧
      (∀ l, varToCons E (theoryName r.name) = some l →
        (PTag.difficulty ∈ l ↔ r.difficult = true))) ∧
    (∀ r ∈ rs, r.hasLab = false →
      ∀ l, varToCons E r.name = some l → (PTag.difficulty ∈ l ↔ r.difficult = true)) ∧
    (∀ (A B : String) (a b : Val),
      difficulty_constraint A a B b = true ↔ 2 ≤ ((a.1 : Int) - (b.1 : Int)).natAbs) := by
  have hEb := builtState_of_ok h hE
  subst hEb
  refine ⟨?_, ?_, ?_⟩
  · intro r hr hb
    constructor
    · intro l hl
      rw [varToCons_lab hr hb] at hl
      rw [← Option.some.inj hl]
      decide
    · intro l hl
      rw [varToCons_theory h hr hb] at hl
      rw [← Option.some.inj hl]
      cases hd : r.difficult <;> simp [hd]
  · intro r hr hb l hl
    rw [varToCons_plain h hr hb] at hl
    rw [← Option.some.inj hl]
    cases hd : r.difficult <;> simp [hd]
  · intro A B a b
    unfold difficulty_constraint
    simp

/-- Witness for the amended C1 on the scenario catalog. -/
theorem c1_difficulty_attachment_witness :
    (∀ l, varToCons (builtState catalog2) (labName "Algorithms") = some l →
      PTag.difficulty ∉ l) ∧
    (∀ l, varToCons (builtState catalog2) (theoryName "Algorithms") = some l →
      (PTag.difficulty ∈ l ↔ algorithmsRec.difficult = true)) := by
  have hmain := c1_difficulty_attachment catalog2 (by decide) (builtState catalog2) (by rfl)
  exact ⟨(hmain.1 algorithmsRec (by decide) (by decide)).1,
    (hmain.1 algorithmsRec (by decide) (by decide)).2⟩

/-- C2 counterexample: semester-uniqueness (and professor-uniqueness)
is attached to "History", "Algorithms Lab" is one of its neighbors and
(0,0) is a valid domain value, yet evaluating the predicate on that
ordered pair is a `KeyError` (none), not a boolean: the Lab variable
has no semester/professor entry. -/
theorem c2_evaluation_keyerror :
    buildExams catalog2 = Except.ok (builtState catalog2) ∧
    varToCons (builtState catalog2) "History" =
      some [PTag.slot, PTag.semester, PTag.professor] ∧
    "Algorithms Lab" ∈ neighborsOf (builtState catalog2) "History" ∧
    (0, 0) ∈ fullDomain ∧
    semester_constraint (builtState catalog2).semesters "History" (0, 0)
      "Algorithms Lab" (0, 0) = none ∧
    professor_constraint (builtState catalog2).professors "History" (0, 0)
      "Algorithms Lab" (0, 0) = none :=
  ⟨by rfl, by decide, by decide, by decide, by decide, by decide⟩

/-- C2 amended: slot-uniqueness, lab-ordering and difficulty-separation
are total boolean functions; semester- and professor-uniqueness
evaluate to a boolean whenever both variables are non-Lab variables of
the problem, but evaluate to a `KeyError` (none) whenever the second
variable is a Lab variable. -/
theorem c2_evaluation_totality (rs : List SubjectRecord) (h : ValidCatalog rs)
    (E : ExamsState) (hE : buildExams rs = Except.ok E) :
    (∀ (A B : String) (a b : Val),
      A ∈ E.vars → B ∈ E.vars →
      A ∉ dkeys E.laboratories → B ∉ dkeys E.laboratories →
      (semester_constraint E.semesters A a B b).isSome = true ∧
      (professor_constraint E.professors A a B b).isSome = true) ∧
    (∀ (A B : String) (a b : Val), B ∈ dkeys E.laboratories →
      semester_constraint E.semesters A a B b = none ∧
      professor_constraint E.professors A a B b = none) := by
  have hEb := builtState_of_ok h hE
  subst hEb
  constructor
  · intro A B a b hA hB hAn hBn
    have h1 : (dget (builtState rs).semesters A).isSome = true :=
      (finalAttr_isSome_iff _ h A).mpr ⟨hA, hAn⟩
    have h2 : (dget (builtState rs).semesters B).isSome = true :=
      (finalAttr_isSome_iff _ h B).mpr ⟨hB, hBn⟩
    have h3 : (dget (builtState rs).professors A).isSome = true :=
      (finalAttr_isSome_iff _ h A).mpr ⟨hA, hAn⟩
    have h4 : (dget (builtState rs).professors B).isSome = true :=
      (finalAttr_isSome_iff _ h B).mpr ⟨hB, hBn⟩
    obtain ⟨sA, e1⟩ := Option.isSome_iff_exists.mp h1
    obtain ⟨sB, e2⟩ := Option.isSome_iff_exists.mp h2
    obtain ⟨pA, e3⟩ := Option.isSome_iff_exists.mp h3
    obtain ⟨pB, e4⟩ := Option.isSome_iff_exists.mp h4
    rw [semester_constraint_some e1 e2 a b, professor_constraint_some e3 e4 a b]
    exact ⟨rfl, rfl⟩
  · intro A B a b hB
    have h2 : dget (builtState rs).semesters B = none := by
      rcases hs : dget (builtState rs).semesters B with _ | v
      · rfl
      · have hsome : (dget (builtState rs).semesters B).isSome = true := by rw [hs]; rfl
        exact absurd hB ((finalAttr_isSome_iff (fun r => r.semester) h B).mp hsome).2
    have h3 : dget (builtState rs).professors B = none := by
      rcases hs : dget (builtState rs).professors B with _ | v
      · rfl
      · have hsome : (dget (builtState rs).professors B).isSome = true := by rw [hs]; rfl
        exact absurd hB ((finalAttr_isSome_iff (fun r => r.professor) h B).mp hsome).2
    exact ⟨semester_constraint_none_right h2 a b, professor_constraint_none_right h3 a b⟩

/-- Witness for the amended C2 on the scenario catalog. -/
theorem c2_evaluation_totality_witness :
    ((semester_constraint (builtState catalog2).semesters "History" (0, 0)
        "Algorithms Theory" (1, 0)).isSome = true ∧
      (professor_constraint (builtState catalog2).professors "History" (0, 0)
        "Algorithms Theory" (1, 0)).isSome = true) ∧
    (semester_constraint (builtState catalog2).semesters "History" (0, 0)
        "Algorithms Lab" (0, 0) = none ∧
      professor_constraint (builtState catalog2).professors "History" (0, 0)
        "Algorithms Lab" (0, 0) = none) := by
  have hmain := c2_evaluation_totality catalog2 (by decide) (builtState catalog2) (by rfl)
  exact ⟨hmain.1 "History" "Algorithms Theory" (0, 0) (1, 0)
      (by decide) (by decide) (by decide) (by decide),
    hmain.2 "History" "Algorithms Lab" (0, 0) (0, 0) (by decide)⟩

/-- Two distinct lab-less records with the same subject name. -/
def dupRecA : SubjectRecord :=
  { name := "A", semester := 1, professor := "P", difficult := false, hasLab := false }

/-- A second record colliding with `dupRecA` on the name. -/
def dupRecB : SubjectRecord :=
  { name := "A", semester := 2, professor := "Q", difficult := false, hasLab := false }

/-- A catalog with a name collision. -/
def dupCatalog : List SubjectRecord := [dupRecA, dupRecB]

/-- C3 counterexample: for two distinct records producing the same
variable name, the builder succeeds (no `DuplicateSubjectError` exists
anywhere in the code) and silently emits a duplicated variable list. -/
theorem c3_no_duplicate_check :
    dupRecA ≠ dupRecB ∧
    (buildExams dupCatalog).map (fun st => st.vars) = Except.ok ["A", "A"] ∧
    ¬(["A", "A"] : List String).Nodup :=
  ⟨by decide, by rfl, by decide⟩

/-- C3 amended: the builder performs no collision validation and never
raises a `DuplicateSubjectError`; colliding records flow through
(duplicated entries in the variable list, last-write-wins attribute
dictionaries, or a `KeyError` for colliding lab-bearing records).  On a
catalog without collisions the variable names are unique across the
whole problem. -/
theorem c3_unique_names (rs : List SubjectRecord) (h : ValidCatalog rs)
    (E : ExamsState) (hE : buildExams rs = Except.ok E) : E.vars.Nodup := by
  have hEb := builtState_of_ok h hE
  subst hEb
  exact derivedVars_nodup rs h

/-- Witness for the amended C3 on the scenario catalog. -/
theorem c3_unique_names_witness : (builtState catalog2).vars.Nodup :=
  c3_unique_names catalog2 (by decide) (builtState catalog2) (by rfl)

/-- Two distinct lab-bearing records with the same subject name. -/
def dupLabRecA : SubjectRecord :=
  { name := "B", semester := 1, professor := "P", difficult := false, hasLab := true }

/-- A second lab-bearing record colliding with `dupLabRecA`. -/
def dupLabRecB : SubjectRecord :=
  { name := "B", semester := 2, professor := "Q", difficult := true, hasLab := true }

/-- A catalog with a colliding pair of lab-bearing records. -/
def dupLabCatalog : List SubjectRecord := [dupLabRecA, dupLabRecB]

/-- C6 counterexample: the builder does not emit the claimed variables
for EVERY ordered input list — on a catalog with two colliding
lab-bearing records it crashes with a `KeyError` (the second `pop` of
the already re-keyed attribute misses) instead of emitting two
variables per record. -/
theorem c6_builder_crash_on_collision :
    dupLabRecA ≠ dupLabRecB ∧
    buildExams dupLabCatalog = Except.error "KeyError" :=
  ⟨by decide, by rfl⟩

/-- C6 amended: on every input list without name collisions the builder
emits, per lab-less record, one variable with its attributes keyed by
that name and, per lab-bearing record, the adjacent pair
"name Theory"/"name Lab" in input order with LabRelation[Lab] = Theory
and all three attributes re-keyed to the Theory name only; every
variable receives the full 63-value (day, slot) domain with day < 21
and slot < 3. -/
theorem c6_builder_output (rs : List SubjectRecord) (h : ValidCatalog rs)
    (E : ExamsState) (hE : buildExams rs = Except.ok E) :
    E.vars = derivedVars rs ∧
    (∀ r ∈ rs, r.hasLab = false →
      dget E.semesters r.name = some r.semester ∧
      dget E.professors r.name = some r.professor ∧
      dget E.difficulties r.name = some r.difficult) ∧
    (∀ r ∈ rs, r.hasLab = true →
      dget E.laboratories (labName r.name) = some (theoryName r.name) ∧
      dget E.semesters (theoryName r.name) = some r.semester ∧
      dget E.professors (theoryName r.name) = some r.professor ∧
      dget E.difficulties (theoryName r.name) = some r.difficult ∧
      dget E.semesters r.name = none ∧
      dget E.semesters (labName r.name) = none) ∧
    (∀ v ∈ E.vars, dget (domainsOf E) v = some fullDomain) ∧
    fullDomain.length = 63 ∧
    (∀ p : Val, p ∈ fullDomain ↔ (p.1 < 21 ∧ p.2 < 3)) := by
  have hEb := builtState_of_ok h hE
  subst hEb
  refine ⟨rfl, ?_, ?_, ?_, fullDomain_length, mem_fullDomain⟩
  · intro r hr hb
    exact ⟨finalAttr_nolab _ h hr hb, finalAttr_nolab _ h hr hb, finalAttr_nolab _ h hr hb⟩
  · intro r hr hb
    exact ⟨labPairs_lookup h hr hb, finalAttr_lab_theory _ h hr hb,
      finalAttr_lab_theory _ h hr hb, finalAttr_lab_theory _ h hr hb,
      finalAttr_lab_origName _ h hr hb, finalAttr_labName_none _ h hr hb⟩
  · intro v hv
    exact dget_domainsOf hv

/-- Witness for the amended C6 on the scenario catalog. -/
theorem c6_builder_output_witness :
    (builtState catalog2).vars = derivedVars catalog2 ∧
    dget (builtState catalog2).laboratories (labName "Algorithms") =
      some (theoryName "Algorithms") ∧
    dget (builtState catalog2).semesters (theoryName "Algorithms") = some 3 ∧
    dget (builtState catalog2).semesters "Algorithms" = none := by
  have hmain := c6_builder_output catalog2 (by decide) (builtState catalog2) (by rfl)
  have halg := hmain.2.2.1 algorithmsRec (by decide) (by decide)
  exact ⟨hmain.1, halg.1, halg.2.1, halg.2.2.2.2.1⟩

/-- C7: every variable's predicate list contains slot-uniqueness;
contains lab-ordering exactly when the variable is a Lab variable or a
Theory variable referenced by some Lab variable; contains semester- and
professor-uniqueness exactly when it is not a Lab variable; contains
difficulty-separation exactly when it is a non-Lab variable whose
difficulty flag is true; a Lab variable carries exactly
slot-uniqueness and lab-ordering, and a difficult lab-referenced Theory
variable carries all five predicates. -/
theorem c7_predicate_lists (rs : List SubjectRecord) (h : ValidCatalog rs)
    (E : ExamsState) (hE : buildExams rs = Except.ok E) :
    ∀ v ∈ E.vars, ∃ l, varToCons E v = some l ∧
      PTag.slot ∈ l ∧
      (PTag.lab ∈ l ↔ (v ∈ dkeys E.laboratories ∨ v ∈ dvalues E.laboratories)) ∧
      (PTag.semester ∈ l ↔ v ∉ dkeys E.laboratories) ∧
      (PTag.professor ∈ l ↔ v ∉ dkeys E.laboratories) ∧
      (PTag.difficulty ∈ l ↔
        (v ∉ dkeys E.laboratories ∧ dget E.difficulties v = some true)) ∧
      (v ∈ dkeys E.laboratories → l = [PTag.slot, PTag.lab]) ∧
      (v ∈ dvalues E.laboratories → dget E.difficulties v = some true →
        l = [PTag.slot, PTag.lab, PTag.semester, PTag.professor, PTag.difficulty]) := by
  have hEb := builtState_of_ok h hE
  subst hEb
  intro v hv
  have hv2 : v ∈ derivedVars rs := hv
  rw [mem_derivedVars] at hv2
  obtain ⟨r, hr, ⟨hb, ev⟩ | ⟨hb, ev⟩⟩ := hv2
  · -- a plain subject variable
    subst ev
    have hkey : r.name ∉ dkeys (builtState rs).laboratories := by
      intro hm
      have hm2 : r.name ∈ dkeys (labPairs rs) := hm
      rw [dkeys_labPairs, List.mem_map] at hm2
      obtain ⟨s, hsm, e⟩ := hm2
      have hs2 := List.mem_filter.mp hsm
      exact (h.2 s hs2.1 hs2.2).2 (e ▸ List.mem_map_of_mem (fun r => r.name) hr)
    have hval : r.name ∉ dvalues (builtState rs).laboratories := by
      intro hm
      obtain ⟨s, hsm, hsl, e⟩ := mem_dvalues_labPairs.mp hm
      exact (h.2 s hsm hsl).1 (e ▸ List.mem_map_of_mem (fun r => r.name) hr)
    have hd : dget (builtState rs).difficulties r.name = some r.difficult :=
      finalAttr_nolab _ h hr hb
    refine ⟨_, varToCons_plain h hr hb, ?_⟩
    cases hdd : r.difficult with
    | false =>
      rw [hdd] at hd
      refine ⟨by decide, iff_of_false (by decide) ?_, iff_of_true (by decide) hkey,
        iff_of_true (by decide) hkey, iff_of_false (by decide) ?_,
        fun hc => absurd hc hkey, fun hc _ => absurd hc hval⟩
      · rintro (hc | hc)
        · exact hkey hc
        · exact hval hc
      · rintro ⟨_, hs⟩
        rw [hd] at hs
        exact absurd (Option.some.inj hs) (by decide)
    | true =>
      rw [hdd] at hd
      refine ⟨by decide, iff_of_false (by decide) ?_, iff_of_true (by decide) hkey,
        iff_of_true (by decide) hkey, iff_of_true (by decide) ⟨hkey, hd⟩,
        fun hc => absurd hc hkey, fun hc _ => absurd hc hval⟩
      rintro (hc | hc)
      · exact hkey hc
      · exact hval hc
  · rcases ev with ev | ev
    · -- a Theory variable referenced by its Lab
      subst ev
      have hkey : theoryName r.name ∉ dkeys (builtState rs).laboratories :=
        (dget_eq_none _ _).mp (labPairs_theory_none r.name)
      have hval : theoryName r.name ∈ dvalues (builtState rs).laboratories :=
        mem_dvalues_labPairs.mpr ⟨r, hr, hb, rfl⟩
      have hd : dget (builtState rs).difficulties (theoryName r.name) = some r.difficult :=
        finalAttr_lab_theory _ h hr hb
      refine ⟨_, varToCons_theory h hr hb, ?_⟩
      cases hdd : r.difficult with
      | false =>
        rw [hdd] at hd
        refine ⟨by decide, iff_of_true (by decide) (Or.inr hval),
          iff_of_true (by decide) hkey, iff_of_true (by decide) hkey,
          iff_of_false (by decide) ?_, fun hc => absurd hc hkey, fun _ hs => ?_⟩
        · rintro ⟨_, hs⟩
          rw [hd] at hs
          exact absurd (Option.some.inj hs) (by decide)
        · rw [hd] at hs
          exact absurd (Option.some.inj hs) (by decide)
      | true =>
        rw [hdd] at hd
        exact ⟨by decide, iff_of_true (by decide) (Or.inr hval),
          iff_of_true (by decide) hkey, iff_of_true (by decide) hkey,
          iff_of_true (by decide) ⟨hkey, hd⟩, fun hc => absurd hc hkey, fun _ _ => rfl⟩
    · -- a Lab variable
      subst ev
      have hkeymem : labName r.name ∈ dkeys (builtState rs).laboratories := by
        show labName r.name ∈ dkeys (labPairs rs)
        rw [dkeys_labPairs, List.mem_map]
        exact ⟨r, List.mem_filter.mpr ⟨hr, hb⟩, rfl⟩
      have hvalnot : labName r.name ∉ dvalues (builtState rs).laboratories := by
        intro hm
        obtain ⟨s, _, _, e⟩ := mem_dvalues_labPairs.mp hm
        exact theoryName_ne_labName s.name r.name e.symm
      refine ⟨_, varToCons_lab hr hb, by decide, iff_of_true (by decide) (Or.inl hkeymem),
        iff_of_false (by decide) (fun hc => hc hkeymem),
        iff_of_false (by decide) (fun hc => hc hkeymem),
        iff_of_false (by decide) (fun hc => hc.1 hkeymem),
        fun _ => rfl, fun hc _ => absurd hc hvalnot⟩

/-- Witness for C7: the Lab variable of the scenario catalog carries a
predicate list containing slot-uniqueness. -/
theorem c7_predicate_lists_witness :
    ∃ l, varToCons (builtState catalog2) (labName "Algorithms") = some l ∧
      PTag.slot ∈ l ∧ PTag.lab ∈ l := by
  obtain ⟨l, h1, h2, h3, _⟩ := c7_predicate_lists catalog2 (by decide)
    (builtState catalog2) (by rfl) (labName "Algorithms") (by decide)
  exact ⟨l, h1, h2, h3.mpr (Or.inl (by decide))⟩

/-- C9 (code bug): the MIN_CONFLICTS branch of the harness passes the
raw solver result straight to `Exams.display`; on the failure signal
(`None`, per the engine contract) that is an `AttributeError` crash,
not a distinct "no solution" report, and the run does not continue.  A
successful assignment, by contrast, is rendered normally. -/
theorem c9_failure_crash :
    minConflictsReport none = Except.error "AttributeError" ∧
    (∀ a : List (String × Val), minConflictsReport (some a) = Except.ok (displayLines a)) :=
  ⟨rfl, fun _ => rfl⟩

/-- C10: after construction the three attribute dictionaries have
exactly the non-Lab variables as keys; in particular, for every
lab-bearing record neither the Lab variable name nor the original
subject name is a key of any attribute dictionary. -/
theorem c10_attribute_keys (rs : List SubjectRecord) (h : ValidCatalog rs)
    (E : ExamsState) (hE : buildExams rs = Except.ok E) :
    (∀ k : String,
      ((dget E.semesters k).isSome = true ↔
        (k ∈ E.vars ∧ k ∉ dkeys E.laboratories)) ∧
      ((dget E.professors k).isSome = true ↔
        (k ∈ E.vars ∧ k ∉ dkeys E.laboratories)) ∧
      ((dget E.difficulties k).isSome = true ↔
        (k ∈ E.vars ∧ k ∉ dkeys E.laboratories))) ∧
    (∀ r ∈ rs, r.hasLab = true →
      dget E.semesters (labName r.name) = none ∧ dget E.semesters r.name = none ∧
      dget E.professors (labName r.name) = none ∧ dget E.professors r.name = none ∧
      dget E.difficulties (labName r.name) = none ∧ dget E.difficulties r.name = none) := by
  have hEb := builtState_of_ok h hE
  subst hEb
  constructor
  · intro k
    exact ⟨finalAttr_isSome_iff (fun r => r.semester) h k,
      finalAttr_isSome_iff (fun r => r.professor) h k,
      finalAttr_isSome_iff (fun r => r.difficult) h k⟩
  · intro r hr hb
    exact ⟨finalAttr_labName_none _ h hr hb, finalAttr_lab_origName _ h hr hb,
      finalAttr_labName_none _ h hr hb, finalAttr_lab_origName _ h hr hb,
      finalAttr_labName_none _ h hr hb, finalAttr_lab_origName _ h hr hb⟩

/-- Witness for C10 on the scenario catalog. -/
theorem c10_attribute_keys_witness :
    ((dget (builtState catalog2).semesters "History").isSome = true ↔
      ("History" ∈ (builtState catalog2).vars ∧
        "History" ∉ dkeys (builtState catalog2).laboratories)) ∧
    dget (builtState catalog2).semesters (labName "Algorithms") = none ∧
    dget (builtState catalog2).semesters "Algorithms" = none := by
  have hmain := c10_attribute_keys catalog2 (by decide) (builtState catalog2) (by rfl)
  have halg := hmain.2 algorithmsRec (by decide) (by decide)
  exact ⟨(hmain.1 "History").1, halg.1, halg.2.1⟩
